import Mathlib

/-!
# Verification of the rt-reporter acquisition pipeline

Shallow embedding of the rt-reporter repository (invap/rt-reporter):
the packet framer, the event decoder, the broker-variant acquisition loop
(`rt_reporter/reporter.py`) and the file-sink router
(`src/reporter_communication_channel.py`), together with proofs of the
testable properties stated in the specification.

Bytes are modelled as `Nat` (values below 256) and decoded Python strings
as lists of character codes (`Str`).
-/

namespace RTReporter

/-- Decoded Python strings and byte strings: lists of character codes. -/
abbrev Str := List Nat

/-- Character codes of a Lean string literal (ASCII helper). -/
def strCodes (s : String) : Str := s.data.map Char.toNat

/-- Little-endian encoding of `n` into `w` bytes (`struct.pack` integer layout). -/
def natToLE : Nat → Nat → List Nat
  | 0, _ => []
  | w + 1, n => n % 256 :: natToLE w (n / 256)

/-- Little-endian byte list read back as an unsigned integer (`struct.unpack` `Q`/`I`). -/
def leToNat : List Nat → Nat
  | [] => 0
  | b :: bs => b + 256 * leToNat bs

/-- Two's-complement reading of an unsigned `bits`-bit value (`struct.unpack` `q`/`i`). -/
def toSigned (bits : Nat) (n : Nat) : Int :=
  if n < 2 ^ (bits - 1) then (n : Int) else (n : Int) - 2 ^ bits

/-- Decimal digit codes of a natural number (fuelled helper). -/
def natToDecAux : Nat → Nat → List Nat
  | 0, _ => []
  | fuel + 1, n => if n < 10 then [48 + n] else natToDecAux fuel (n / 10) ++ [48 + n % 10]

/-- Decimal digit codes of a natural number, as Python `str(n)` renders it. -/
def natToDec (n : Nat) : Str := natToDecAux (n + 1) n

/-- Decimal rendering of an integer, as Python `str(i)` renders it. -/
def intToDec (i : Int) : Str :=
  if i < 0 then 45 :: natToDec i.natAbs else natToDec i.toNat

/-- Characters removed by Python `str.strip()` (the Latin-1 range of `str.isspace`). -/
def pySpaceByte (b : Nat) : Bool :=
  b == 32 || b == 9 || b == 10 || b == 11 || b == 12 || b == 13 ||
  b == 28 || b == 29 || b == 30 || b == 31 || b == 133 || b == 160

/-- Python `str.strip()`: drop whitespace from both ends. -/
def pyStrip (cs : Str) : Str := List.rdropWhile pySpaceByte (cs.dropWhile pySpaceByte)

/-- Bytes removed by Python `bytes.rstrip()` (ASCII whitespace). -/
def asciiSpaceByte (b : Nat) : Bool :=
  b == 32 || b == 9 || b == 10 || b == 11 || b == 12 || b == 13

/-- Python `bytes.rstrip()`: drop ASCII whitespace from the right end only.
This is the specification-side operation used to state the decode law. -/
def bytesRStrip (bs : Str) : Str := List.rdropWhile asciiSpaceByte bs

/-- Quote character chosen by Python `repr` of a bytes object: a double quote
when the bytes contain a single quote but no double quote, else a single quote. -/
def reprQuote (bs : List Nat) : Nat := if 39 ∈ bs ∧ ¬ 34 ∈ bs then 34 else 39

/-- Lowercase hexadecimal digit code. -/
def hexDigitCode (n : Nat) : Nat := if n < 10 then 48 + n else 87 + n

/-- Python `repr` escape of one byte inside a bytes literal quoted with `q`:
backslash and the quote character are backslash-escaped, tab, newline and
carriage return use their mnemonic escapes, printable ASCII stands for itself,
and every other byte becomes a `\xhh` escape. -/
def escByte (q b : Nat) : List Nat :=
  if b = 92 then [92, 92]
  else if b = q then [92, q]
  else if b = 9 then [92, 116]
  else if b = 10 then [92, 110]
  else if b = 13 then [92, 114]
  else if 32 ≤ b ∧ b ≤ 126 then [b]
  else [92, 120, hexDigitCode (b / 16), hexDigitCode (b % 16)]

/-- Python `str(bs)` for a bytes object `bs`: the character codes of
`b` + quote + escaped bytes + quote. -/
def pyBytesStr (bs : List Nat) : List Nat :=
  98 :: reprQuote bs :: ((bs.map (escByte (reprQuote bs))).flatten ++ [reprQuote bs])

/-- The payload-decoding idiom of the source:
`str(raw)[2:][:takeN].strip()` applied to the raw payload-region bytes. -/
def decodeField (bs : List Nat) (takeN : Nat) : Str :=
  pyStrip (((pyBytesStr bs).drop 2).take takeN)

/-- Python `payload.split(",", 1)`: the part before the first comma and,
when a comma exists, the part after it. -/
def splitFirst : Str → Str × Option Str
  | [] => ([], none)
  | c :: cs =>
    if c = 44 then ([], some cs)
    else
      let r := splitFirst cs
      (c :: r.1, r.2)

/-- Fuelled packet slicer: `[buffer[i : i + 1024] for i in range(0, len(buffer), 1024)]`. -/
def frameGo : Nat → List Nat → List (List Nat)
  | 0, _ => []
  | fuel + 1, xs => if xs = [] then [] else xs.take 1024 :: frameGo fuel (xs.drop 1024)

/-- The framer of `Reporter.run`: slice a read buffer into 1024-byte slices;
the final slice is short when the buffer length is not a multiple of 1024. -/
def frame (xs : List Nat) : List (List Nat) := frameGo xs.length xs

/-- Association-list lookup (Python `dict` access). -/
def lookupA {α : Type} : List (Str × α) → Str → Option α
  | [], _ => none
  | (k, v) :: rest, key => if k = key then some v else lookupA rest key

/-- Association-list update (Python `dict` assignment): replace the existing
binding or append a new one. -/
def updateA {α : Type} : List (Str × α) → Str → α → List (Str × α)
  | [], key, v => [(key, v)]
  | (k, w) :: rest, key, v =>
    if k = key then (k, v) :: rest else (k, w) :: updateA rest key v

/-! ## Broker variant (`rt_reporter/reporter.py`)

The canonical layout: `max_pkg_size = 1024`, `struct.unpack("QI1012s", pkg)`,
payload decoded as `str(raw)[2:][:1010].strip()`. -/

/-- The packet decoder of `Reporter.run`: `struct.unpack("QI1012s", pkg)`
followed by the payload-string idiom. `struct.unpack` demands exactly
1024 bytes and raises `struct.error` otherwise, modelled as `none`. -/
def decodePkg (pkg : List Nat) : Option (Nat × Nat × Str) :=
  if pkg.length = 1024 then
    some (leToNat (pkg.take 8), leToNat ((pkg.drop 8).take 4),
      decodeField (pkg.drop 12) 1010)
  else none

/-- Modelled from the spec: the SUT instrumentation encoder is outside this
repository; per the specification a packet is an 8-byte unsigned timestamp,
a 4-byte unsigned kind, and the payload placed in the 1012-byte payload
region padded with whitespace (spaces), so that the decoder's right-strip
recovers the payload. -/
def encodePkg (ts kind : Nat) (payload : List Nat) : List Nat :=
  natToLE 8 ts ++ natToLE 4 kind ++ payload ++ List.replicate (1012 - payload.length) 32

/-- CSV line `"<ts>,<tag>,<payload>"` as built by the broker-variant match. -/
def eventCsv (ts : Nat) (tag : String) (payload : Str) : Str :=
  natToDec ts ++ [44] ++ strCodes tag ++ [44] ++ payload

/-- The per-packet work of the broker-variant loop body: decode the packet and
classify the event type. `none` is `struct.error` on a short packet;
`some none` is kind 4 (`EndOfReportEvent`, nothing published); `some (some csv)`
is the CSV line handed to the codecs and published. The CSV/dict codecs live in
the external `rt_rabbitmq_wrapper` package; modelled from the spec as total on
the lines this match produces. -/
def pkgToCsv (pkg : List Nat) : Option (Option Str) :=
  match decodePkg pkg with
  | none => none
  | some (ts, k, s) =>
    if k = 0 then some (some (eventCsv ts "timed_event" s))
    else if k = 1 then some (some (eventCsv ts "state_event" s))
    else if k = 2 then some (some (eventCsv ts "process_event" s))
    else if k = 3 then some (some (eventCsv ts "component_event" s))
    else if k = 4 then some none
    else some (some (eventCsv ts "invalid" s))

/-- A message published to the RabbitMQ fanout exchange: its body and whether
the `termination` header is set. Event publishes carry plain properties
(no headers); the poison pill has empty body and `termination = true`. -/
structure BMsg where
  body : Str
  termination : Bool
  deriving DecidableEq, Repr

/-- The poison-pill message: empty body, header `termination: true`. -/
def pillMsg : BMsg := ⟨[], true⟩

/-- Errors that abort the broker-variant loop body: `struct.error` on a short
packet, and `ReporterError` raised when a publish fails with `RabbitMQError`. -/
inductive BrokerAbort where
  | structError
  | publishError
  deriving DecidableEq, Repr

/-- Process the packets of one read buffer, in order. `oracle pc` tells
whether the `pc`-th publish call of the run succeeds. Returns the publish
calls made (in order), the next publish counter, and the abort, if any:
a short packet raises `struct.error` before any publish for it, and a failed
publish raises `ReporterError` immediately after the failing call. -/
def processPkgs (oracle : Nat → Bool) : Nat → List (List Nat) → List BMsg × Nat × Option BrokerAbort
  | pc, [] => ([], pc, none)
  | pc, pkg :: rest =>
    match pkgToCsv pkg with
    | none => ([], pc, some .structError)
    | some none => processPkgs oracle pc rest
    | some (some csv) =>
      if oracle pc then
        let r := processPkgs oracle (pc + 1) rest
        (⟨csv, false⟩ :: r.1, r.2)
      else ([⟨csv, false⟩], pc + 1, some .publishError)

/-- One iteration of the acquisition loop, as observed by the worker:
the stop flag (set by SIGINT), whether the timeout deadline has been reached,
and the bytes returned by the pipe read. The buffer is read and processed in
the same iteration in which a stop or timeout is first observed; the loop
condition then exits before the next iteration. -/
structure IterInput where
  stopSig : Bool
  timeoutReached : Bool
  buffer : List Nat

/-- Why the `while not timeout and not stop` loop stopped iterating. -/
inductive LoopRes where
  | exitTimeout
  | exitStop
  | aborted (e : BrokerAbort)
  | ranOut
  deriving DecidableEq, Repr

/-- The acquisition loop of `Reporter.run`: process each iteration's buffer,
then exit if the timeout or stop flag was observed at the top of that
iteration. An abort (uncaught exception) ends the run at once. An exhausted
iteration list models a loop still blocked on the pipe. -/
def runLoop (oracle : Nat → Bool) : Nat → List IterInput → List BMsg × Nat × LoopRes
  | pc, [] => ([], pc, .ranOut)
  | pc, it :: rest =>
    let r := processPkgs oracle pc (frame it.buffer)
    match r.2.2 with
    | some e => (r.1, r.2.1, .aborted e)
    | none =>
      if it.timeoutReached then (r.1, r.2.1, .exitTimeout)
      else if it.stopSig then (r.1, r.2.1, .exitStop)
      else
        let r2 := runLoop oracle r.2.1 rest
        (r.1 ++ r2.1, r2.2)

/-- How a whole broker-variant run ended. -/
inductive RunOutcome where
  | completed (r : LoopRes)
  | pillFailed (r : LoopRes)
  | abortedInLoop (e : BrokerAbort)
  | stillRunning
  deriving DecidableEq, Repr

/-- `Reporter.run`: the acquisition loop followed — only when the loop exits
through its condition — by the poison-pill publish. An exception during the
loop propagates out of `run` and the pill publish is never reached; a failed
pill publish raises `ReporterError` after the attempt. Returns the publish
calls made over the whole run and the outcome. -/
def runReporter (oracle : Nat → Bool) (iters : List IterInput) : List BMsg × RunOutcome :=
  let r := runLoop oracle 0 iters
  match r.2.2 with
  | .aborted e => (r.1, .abortedInLoop e)
  | .ranOut => (r.1, .stillRunning)
  | res =>
    if oracle r.2.1 then (r.1 ++ [pillMsg], .completed res)
    else (r.1 ++ [pillMsg], .pillFailed res)

/-- Number of poison-pill publishes in a publish trace. -/
def countPills (tr : List BMsg) : Nat := (tr.filter (fun m => m.termination)).length

/-- Whether the run outcome means the acquisition loop exited through its
`while` condition (so the poison-pill publish was reached). -/
def loopExited : RunOutcome → Bool
  | .completed _ => true
  | .pillFailed _ => true
  | .abortedInLoop _ => false
  | .stillRunning => false

/-! ## File-sink variant (`src/reporter_communication_channel.py`)

The legacy layout: `max_pkg_size = 1040`, `struct.unpack("qi1028s", pkg)`
(signed fields), payload decoded as `str(raw)[2:][:1020].strip()`. -/

/-- A decoded event of the file-sink variant: signed timestamp and event
type, payload character codes. -/
structure FEvent where
  timestamp : Int
  etype : Int
  payload : Str
  deriving DecidableEq, Repr

/-- The file-variant packet decoder: `struct.unpack("qi1028s", pkg)` (exactly
1040 bytes, signed 8-byte and 4-byte little-endian fields) followed by
`str(raw)[2:][:1020].strip()`. -/
def fileDecodePkg (pkg : List Nat) : Option FEvent :=
  if pkg.length = 1040 then
    some ⟨toSigned 64 (leToNat (pkg.take 8)), toSigned 32 (leToNat ((pkg.drop 8).take 4)),
      decodeField (pkg.drop 12) 1020⟩
  else none

/-- An open per-component sink: the identity of the stream returned by `open`
(fresh per call) and the path of the file it writes to. -/
structure SinkRef where
  sid : Nat
  path : Str
  deriving DecidableEq, Repr

/-- The state of `ReporterCommunicationChannel`: the contents of the files
written so far, the `event_logs_map` from sink name to open stream, a counter
supplying fresh stream identities, and the four event counters read by
`get_count`. -/
structure FileState where
  files : List (Str × Str)
  sinks : List (Str × SinkRef)
  nextId : Nat
  timedCount : Nat
  stateCount : Nat
  processCount : Nat
  componentCount : Nat
  deriving DecidableEq, Repr

/-- `get_count`: the four counters in source order. -/
def getCount (s : FileState) : List Nat :=
  [s.timedCount, s.stateCount, s.processCount, s.componentCount]

/-- Exceptions the router can raise: `KeyError` on a missing
`event_logs_map` entry and `IndexError` on `split(",", 1)[1]` when the
payload has no comma. -/
inductive FileErr where
  | keyError (key : Str)
  | indexError
  deriving DecidableEq, Repr

/-- `stream.write(line)`: append `line` to the contents of the file at `path`. -/
def appendFile (files : List (Str × Str)) (path line : Str) : List (Str × Str) :=
  updateA files path ((lookupA files path).getD [] ++ line)

/-- The sink name `"main"` registered before the loop starts. -/
def mainKey : Str := strCodes "main"

/-- A main-log line `"<ts>,<tag>,<payload>\n"` of the file variant. -/
def fileCsvLine (ts : Int) (tag : String) (payload : Str) : Str :=
  intToDec ts ++ [44] ++ strCodes tag ++ [44] ++ payload ++ [10]

/-- `event_logs_map[name].write(line)`: look the stream up (raising `KeyError`
when absent) and append the line to its file. -/
def writeSink (s : FileState) (name line : Str) : FileState × Option FileErr :=
  match lookupA s.sinks name with
  | none => (s, some (.keyError name))
  | some ref => ({ s with files := appendFile s.files ref.path line }, none)

/-- One iteration of the `match event_type` router of
`ReporterCommunicationChannel.run`, with the state threaded explicitly.
Counter increments happen before the write of the same arm, as in the source,
so a raise after the increment leaves the counter incremented. Kind 4 opens
`"<files_path>/<payload>_log.csv"` truncated (`open(..., "w")`) and registers
the fresh stream under the payload name, unconditionally. Kind 5 splits the
payload on the first comma, raising `IndexError` when there is none, then
looks the component sink up, raising `KeyError` when it is absent. -/
def fileStep (filesPath : Str) (s : FileState) (e : FEvent) : FileState × Option FileErr :=
  if e.etype = 0 then
    writeSink { s with timedCount := s.timedCount + 1 } mainKey
      (fileCsvLine e.timestamp "timed_event" e.payload)
  else if e.etype = 1 then
    writeSink { s with stateCount := s.stateCount + 1 } mainKey
      (fileCsvLine e.timestamp "state_event" e.payload)
  else if e.etype = 2 then
    writeSink { s with processCount := s.processCount + 1 } mainKey
      (fileCsvLine e.timestamp "process_event" e.payload)
  else if e.etype = 3 then
    writeSink { s with componentCount := s.componentCount + 1 } mainKey
      (fileCsvLine e.timestamp "component_event" e.payload)
  else if e.etype = 4 then
    let path := filesPath ++ [47] ++ e.payload ++ strCodes "_log.csv"
    ({ s with files := updateA s.files path [],
              sinks := updateA s.sinks e.payload ⟨s.nextId, path⟩,
              nextId := s.nextId + 1 }, none)
  else if e.etype = 5 then
    let s' := { s with componentCount := s.componentCount + 1 }
    match splitFirst e.payload with
    | (_, none) => (s', some .indexError)
    | (comp, some suffix) =>
      match lookupA s'.sinks comp with
      | none => (s', some (.keyError comp))
      | some ref =>
        ({ s' with files := appendFile s'.files ref.path (intToDec e.timestamp ++ [44] ++ suffix ++ [10]) }, none)
  else
    writeSink s mainKey (fileCsvLine e.timestamp "invalid" e.payload)

/-- Run the file-variant router over a list of decoded events; an uncaught
exception ends the run with the state reached at the raise. -/
def runFile (filesPath : Str) (s : FileState) : List FEvent → FileState
  | [] => s
  | e :: es =>
    let r := fileStep filesPath s e
    match r.2 with
    | none => runFile filesPath r.1 es
    | some _ => r.1

/-- A concrete starting state: the `"main"` sink is registered (opened before
the loop) and no component sink exists yet. -/
def exampleMainState : FileState :=
  ⟨[(strCodes "main_log.csv", [])], [(mainKey, ⟨0, strCodes "main_log.csv"⟩)], 1, 0, 0, 0, 0⟩

/-- The sink file path the router derives for component `"m"` under files
path `"d"`. -/
def examplePathM : Str := strCodes "d" ++ [47] ++ strCodes "m" ++ strCodes "_log.csv"

/-- A concrete state in which the component sink `"m"` is registered besides
`"main"`. -/
def exampleRegState : FileState :=
  ⟨[(strCodes "main_log.csv", []), (examplePathM, [])],
    [(mainKey, ⟨0, strCodes "main_log.csv"⟩), (strCodes "m", ⟨1, examplePathM⟩)], 2, 0, 0, 0, 0⟩

/-! ## Helper lemmas -/

theorem length_natToLE (w n : Nat) : (natToLE w n).length = w := by
  induction w generalizing n with
  | zero => rfl
  | succ w ih => simp [natToLE, ih]

theorem leToNat_natToLE (w n : Nat) (h : n < 256 ^ w) : leToNat (natToLE w n) = n := by
  induction w generalizing n with
  | zero =>
    simp [natToLE, leToNat]
    omega
  | succ w ih =>
    have hdiv : n / 256 < 256 ^ w := by
      rw [Nat.div_lt_iff_lt_mul (by norm_num)]
      calc n < 256 ^ (w + 1) := h
        _ = 256 ^ w * 256 := by ring
    simp only [natToLE, leToNat, ih (n / 256) hdiv]
    omega

theorem length_encodePkg (ts k : Nat) (p : Str) (h : p.length ≤ 1012) :
    (encodePkg ts k p).length = 1024 := by
  simp [encodePkg, length_natToLE]
  omega

theorem encodePkg_take8 (ts k : Nat) (p : Str) :
    (encodePkg ts k p).take 8 = natToLE 8 ts := by
  have h := List.take_left (natToLE 8 ts) (natToLE 4 k ++ p ++ List.replicate (1012 - p.length) 32)
  rw [length_natToLE] at h
  unfold encodePkg
  rw [show (natToLE 8 ts ++ natToLE 4 k ++ p ++ List.replicate (1012 - p.length) 32)
        = natToLE 8 ts ++ (natToLE 4 k ++ p ++ List.replicate (1012 - p.length) 32) by
      simp [List.append_assoc]]
  exact h

theorem encodePkg_drop8_take4 (ts k : Nat) (p : Str) :
    ((encodePkg ts k p).drop 8).take 4 = natToLE 4 k := by
  have hd := List.drop_left (natToLE 8 ts) (natToLE 4 k ++ (p ++ List.replicate (1012 - p.length) 32))
  rw [length_natToLE] at hd
  have ht := List.take_left (natToLE 4 k) (p ++ List.replicate (1012 - p.length) 32)
  rw [length_natToLE] at ht
  unfold encodePkg
  rw [show (natToLE 8 ts ++ natToLE 4 k ++ p ++ List.replicate (1012 - p.length) 32)
        = natToLE 8 ts ++ (natToLE 4 k ++ (p ++ List.replicate (1012 - p.length) 32)) by
      simp [List.append_assoc]]
  rw [hd, ht]

theorem encodePkg_drop12 (ts k : Nat) (p : Str) :
    (encodePkg ts k p).drop 12 = p ++ List.replicate (1012 - p.length) 32 := by
  have hd := List.drop_left (natToLE 8 ts) (natToLE 4 k ++ (p ++ List.replicate (1012 - p.length) 32))
  rw [length_natToLE] at hd
  have hd4 := List.drop_left (natToLE 4 k) (p ++ List.replicate (1012 - p.length) 32)
  rw [length_natToLE] at hd4
  unfold encodePkg
  rw [show (12 : Nat) = 8 + 4 by rfl, ← List.drop_drop]
  rw [show (natToLE 8 ts ++ natToLE 4 k ++ p ++ List.replicate (1012 - p.length) 32)
        = natToLE 8 ts ++ (natToLE 4 k ++ (p ++ List.replicate (1012 - p.length) 32)) by
      simp [List.append_assoc]]
  rw [hd, hd4]

theorem escByte_plain (q b : Nat) (h32 : 32 ≤ b) (h126 : b ≤ 126) (hq : b ≠ q)
    (h92 : b ≠ 92) : escByte q b = [b] := by
  unfold escByte
  rw [if_neg h92, if_neg hq, if_neg (by omega), if_neg (by omega), if_neg (by omega),
    if_pos ⟨h32, h126⟩]

theorem flatten_map_escByte (q : Nat) (bs : List Nat)
    (h : ∀ b ∈ bs, 32 ≤ b ∧ b ≤ 126 ∧ b ≠ q ∧ b ≠ 92) :
    (bs.map (escByte q)).flatten = bs := by
  induction bs with
  | nil => rfl
  | cons b rest ih =>
    obtain ⟨h32, h126, hq, h92⟩ := h b (List.mem_cons_self b rest)
    simp only [List.map_cons, List.flatten_cons, escByte_plain q b h32 h126 hq h92,
      List.singleton_append, List.cons.injEq, true_and]
    exact ih fun x hx => h x (List.mem_cons_of_mem b hx)

theorem reprQuote_of_no39 (bs : List Nat) (h : ¬ 39 ∈ bs) : reprQuote bs = 39 := by
  unfold reprQuote
  rw [if_neg (by tauto)]

theorem pyBytesStr_plain (bs : List Nat)
    (h : ∀ b ∈ bs, 32 ≤ b ∧ b ≤ 126 ∧ b ≠ 39 ∧ b ≠ 92) :
    pyBytesStr bs = 98 :: 39 :: (bs ++ [39]) := by
  have hq : reprQuote bs = 39 := reprQuote_of_no39 bs fun hmem => (h 39 hmem).2.2.1 rfl
  unfold pyBytesStr
  rw [hq, flatten_map_escByte 39 bs fun b hb => ⟨(h b hb).1, (h b hb).2.1, (h b hb).2.2.1, (h b hb).2.2.2⟩]

theorem dropWhile_append_of_all {α : Type} (p : α → Bool) (xs ys : List α)
    (h : ∀ a ∈ xs, p a = true) : List.dropWhile p (xs ++ ys) = List.dropWhile p ys := by
  rw [List.dropWhile_append, if_pos]
  rw [List.isEmpty_iff, List.dropWhile_eq_nil_iff]
  exact h

theorem rdropWhile_append_of_all {α : Type} (p : α → Bool) (xs ys : List α)
    (h : ∀ a ∈ ys, p a = true) : List.rdropWhile p (xs ++ ys) = List.rdropWhile p xs := by
  induction ys generalizing xs with
  | nil => simp
  | cons y ys ih =>
    rw [show xs ++ y :: ys = (xs ++ [y]) ++ ys by simp]
    rw [ih (xs ++ [y]) fun a ha => h a (List.mem_cons_of_mem y ha)]
    exact List.rdropWhile_concat_pos p xs y (h y (List.mem_cons_self y ys))

theorem pyStrip_append_spaces (xs ys : Str) (h : ∀ a ∈ ys, pySpaceByte a = true) :
    pyStrip (xs ++ ys) = pyStrip xs := by
  unfold pyStrip
  rw [List.dropWhile_append]
  by_cases hxs : (List.dropWhile pySpaceByte xs).isEmpty = true
  · rw [if_pos hxs]
    rw [List.isEmpty_iff] at hxs
    rw [List.dropWhile_eq_nil_iff.mpr h, hxs]
  · rw [if_neg hxs]
    exact rdropWhile_append_of_all pySpaceByte _ ys h

theorem dropWhile_congr_of_mem {α : Type} (p q : α → Bool) (l : List α)
    (h : ∀ a ∈ l, p a = q a) : List.dropWhile p l = List.dropWhile q l := by
  induction l with
  | nil => rfl
  | cons a rest ih =>
    simp only [List.dropWhile_cons, h a (List.mem_cons_self a rest)]
    rw [ih fun x hx => h x (List.mem_cons_of_mem a hx)]

theorem rdropWhile_congr_of_mem {α : Type} (p q : α → Bool) (l : List α)
    (h : ∀ a ∈ l, p a = q a) : List.rdropWhile p l = List.rdropWhile q l := by
  unfold List.rdropWhile
  rw [dropWhile_congr_of_mem p q l.reverse fun a ha => h a (List.mem_reverse.mp ha)]

theorem space_agree (b : Nat) (h32 : 32 ≤ b) (h126 : b ≤ 126) :
    pySpaceByte b = asciiSpaceByte b := by
  rw [← Bool.coe_iff_coe]
  unfold pySpaceByte asciiSpaceByte
  simp only [Bool.or_eq_true, beq_iff_eq]
  omega

theorem pyStrip_plain_noleading (p : Str) (h : ∀ b ∈ p, 32 ≤ b ∧ b ≤ 126)
    (hhead : p.head? ≠ some 32) : pyStrip p = bytesRStrip p := by
  unfold pyStrip bytesRStrip
  have hdrop : List.dropWhile pySpaceByte p = p := by
    cases p with
    | nil => rfl
    | cons b rest =>
      rw [List.dropWhile_cons, if_neg]
      obtain ⟨h32, h126⟩ := h b (List.mem_cons_self b rest)
      have hb32 : b ≠ 32 := fun hb => hhead (by rw [hb]; rfl)
      simp only [pySpaceByte, Bool.or_eq_true, beq_iff_eq]
      omega
  rw [hdrop]
  exact rdropWhile_congr_of_mem _ _ p fun b hb => space_agree b (h b hb).1 (h b hb).2

/-- The decode side of the round-trip law on whitespace-padded packets whose
payload bytes are plain printable ASCII (no quote and no backslash characters):
the decoder recovers the payload stripped of whitespace on **both** ends,
because the source applies `.strip()`, not `.rstrip()`. -/
theorem decode_encode_plain (ts k : Nat) (p : Str) (hts : ts < 2 ^ 64) (hk : k < 2 ^ 32)
    (hlen : p.length ≤ 1010)
    (hbytes : ∀ b ∈ p, 32 ≤ b ∧ b ≤ 126 ∧ b ≠ 34 ∧ b ≠ 39 ∧ b ≠ 92) :
    decodePkg (encodePkg ts k p) = some (ts, k, pyStrip p) := by
  have hlen1024 : (encodePkg ts k p).length = 1024 := length_encodePkg ts k p (by omega)
  unfold decodePkg
  rw [if_pos hlen1024, encodePkg_take8, encodePkg_drop8_take4, encodePkg_drop12]
  rw [leToNat_natToLE 8 ts (by norm_num at hts ⊢; omega),
    leToNat_natToLE 4 k (by norm_num at hk ⊢; omega)]
  have hplainpad : ∀ b ∈ p ++ List.replicate (1012 - p.length) 32,
      32 ≤ b ∧ b ≤ 126 ∧ b ≠ 39 ∧ b ≠ 92 := by
    intro b hb
    rcases List.mem_append.mp hb with hmem | hmem
    · exact ⟨(hbytes b hmem).1, (hbytes b hmem).2.1, (hbytes b hmem).2.2.2.1,
        (hbytes b hmem).2.2.2.2⟩
    · rw [List.eq_of_mem_replicate hmem]
      norm_num
  have hrepr := pyBytesStr_plain (p ++ List.replicate (1012 - p.length) 32) hplainpad
  unfold decodeField
  rw [hrepr]
  have hdrop2 : ((98 : Nat) :: 39 :: ((p ++ List.replicate (1012 - p.length) 32) ++ [39])).drop 2
      = (p ++ List.replicate (1012 - p.length) 32) ++ [39] := rfl
  rw [hdrop2]
  have hlenpad : (p ++ List.replicate (1012 - p.length) 32).length = 1012 := by
    simp [List.length_append]
    omega
  rw [List.take_append_of_le_length (by rw [hlenpad]; norm_num)]
  rw [List.take_append_eq_append_take, List.take_of_length_le hlen, List.take_replicate]
  have hmin : (1010 - p.length) ⊓ (1012 - p.length) = 1010 - p.length := by omega
  rw [hmin, pyStrip_append_spaces p (List.replicate (1010 - p.length) 32)
    (fun a ha => by rw [List.eq_of_mem_replicate ha]; rfl)]

theorem frameGo_succ (fuel : Nat) (xs : List Nat) :
    frameGo (fuel + 1) xs = if xs = [] then [] else xs.take 1024 :: frameGo fuel (xs.drop 1024) :=
  rfl

theorem frameGo_eq_of_le (f1 : Nat) : ∀ (f2 : Nat) (xs : List Nat),
    xs.length ≤ f1 → xs.length ≤ f2 → frameGo f1 xs = frameGo f2 xs := by
  induction f1 with
  | zero =>
    intro f2 xs h1 _
    have hnil : xs = [] := List.eq_nil_of_length_eq_zero (by omega)
    subst hnil
    cases f2 <;> simp [frameGo]
  | succ f ih =>
    intro f2 xs h1 h2
    by_cases hxs : xs = []
    · subst hxs
      cases f2 <;> simp [frameGo]
    · have hpos : 1 ≤ xs.length := by
        cases xs with
        | nil => exact absurd rfl hxs
        | cons a l => simp
      cases f2 with
      | zero => omega
      | succ g =>
        rw [frameGo_succ, frameGo_succ, if_neg hxs, if_neg hxs]
        have hdrop : (xs.drop 1024).length = xs.length - 1024 := List.length_drop 1024 xs
        rw [ih g (xs.drop 1024) (by omega) (by omega)]

theorem frame_cons (xs : List Nat) (h : xs ≠ []) :
    frame xs = xs.take 1024 :: frame (xs.drop 1024) := by
  have hpos : 1 ≤ xs.length := by
    cases xs with
    | nil => exact absurd rfl h
    | cons a l => simp
  obtain ⟨m, hm⟩ : ∃ m, xs.length = m + 1 := ⟨xs.length - 1, by omega⟩
  have hdrop : (xs.drop 1024).length = xs.length - 1024 := List.length_drop 1024 xs
  have h1 : frame xs = frameGo (m + 1) xs := by
    unfold frame
    rw [hm]
  rw [h1, frameGo_succ, if_neg h]
  congr 1
  unfold frame
  exact frameGo_eq_of_le m (xs.drop 1024).length (xs.drop 1024) (by omega) (le_refl _)

theorem frame_whole (n : Nat) : ∀ buf : List Nat, buf.length = n * 1024 →
    (frame buf).length = n ∧ (∀ q ∈ frame buf, q.length = 1024) ∧ (frame buf).flatten = buf := by
  induction n with
  | zero =>
    intro buf hlen
    have hnil : buf = [] := List.eq_nil_of_length_eq_zero (by omega)
    subst hnil
    exact ⟨rfl, by simp [frame, frameGo], rfl⟩
  | succ n ih =>
    intro buf hlen
    have hne : buf ≠ [] := by
      intro hb
      rw [hb] at hlen
      simp only [List.length_nil] at hlen
      omega
    have htake : (buf.take 1024).length = 1024 := by
      rw [List.length_take]
      omega
    have hdrop : (buf.drop 1024).length = n * 1024 := by
      rw [List.length_drop]
      omega
    obtain ⟨h1, h2, h3⟩ := ih (buf.drop 1024) hdrop
    rw [frame_cons buf hne]
    refine ⟨by simp [h1], ?_, ?_⟩
    · intro q hq
      rcases List.mem_cons.mp hq with rfl | hq'
      · exact htake
      · exact h2 q hq'
    · simp only [List.flatten_cons, h3]
      exact List.take_append_drop 1024 buf

theorem pkgToCsv_none_of_short (pkg : List Nat) (h : pkg.length ≠ 1024) :
    pkgToCsv pkg = none := by
  unfold pkgToCsv decodePkg
  rw [if_neg h]

theorem frame_short_chunk (fuel : Nat) : ∀ buf : List Nat, buf.length ≤ fuel →
    buf.length % 1024 ≠ 0 → ∃ q ∈ frame buf, q.length ≠ 1024 := by
  induction fuel with
  | zero =>
    intro buf h1 hmod
    have hnil : buf = [] := List.eq_nil_of_length_eq_zero (by omega)
    subst hnil
    simp at hmod
  | succ f ih =>
    intro buf h1 hmod
    have hne : buf ≠ [] := by
      intro hb
      subst hb
      simp at hmod
    rw [frame_cons buf hne]
    by_cases hlt : buf.length < 1024
    · refine ⟨buf.take 1024, List.mem_cons_self _ _, ?_⟩
      rw [List.take_of_length_le (by omega)]
      omega
    · have hd : (buf.drop 1024).length = buf.length - 1024 := List.length_drop 1024 buf
      obtain ⟨q, hq, hq2⟩ := ih (buf.drop 1024) (by omega) (by omega)
      exact ⟨q, List.mem_cons_of_mem _ hq, hq2⟩

theorem processPkgs_abort_of_mem_none (oracle : Nat → Bool) :
    ∀ (pkgs : List (List Nat)) (pc : Nat), (∃ q ∈ pkgs, pkgToCsv q = none) →
      (processPkgs oracle pc pkgs).2.2 ≠ none := by
  intro pkgs
  induction pkgs with
  | nil =>
    intro pc h
    simp at h
  | cons pkg rest ih =>
    intro pc h
    rcases hc : pkgToCsv pkg with - | oc
    · simp [processPkgs, hc]
    · rcases oc with - | csv
      · simp only [processPkgs, hc]
        apply ih
        rcases h with ⟨q, hq, hq2⟩
        rcases List.mem_cons.mp hq with rfl | hq'
        · rw [hc] at hq2
          exact absurd hq2 (by simp)
        · exact ⟨q, hq', hq2⟩
      · simp only [processPkgs, hc]
        by_cases ho : oracle pc
        · rw [if_pos ho]
          apply ih
          rcases h with ⟨q, hq, hq2⟩
          rcases List.mem_cons.mp hq with rfl | hq'
          · rw [hc] at hq2
            exact absurd hq2 (by simp)
          · exact ⟨q, hq', hq2⟩
        · rw [if_neg ho]
          simp

theorem processPkgs_allok_structError :
    ∀ (pkgs : List (List Nat)) (pc : Nat), (∃ q ∈ pkgs, pkgToCsv q = none) →
      (processPkgs (fun _ => true) pc pkgs).2.2 = some .structError := by
  intro pkgs
  induction pkgs with
  | nil =>
    intro pc h
    simp at h
  | cons pkg rest ih =>
    intro pc h
    rcases hc : pkgToCsv pkg with - | oc
    · simp [processPkgs, hc]
    · have hrest : ∃ q ∈ rest, pkgToCsv q = none := by
        rcases h with ⟨q, hq, hq2⟩
        rcases List.mem_cons.mp hq with rfl | hq'
        · rw [hc] at hq2
          exact absurd hq2 (by simp)
        · exact ⟨q, hq', hq2⟩
      rcases oc with - | csv
      · simp only [processPkgs, hc]
        exact ih pc hrest
      · simp only [processPkgs, hc, if_pos]
        exact ih (pc + 1) hrest

theorem processPkgs_no_pill (oracle : Nat → Bool) :
    ∀ (pkgs : List (List Nat)) (pc : Nat) (m : BMsg), m ∈ (processPkgs oracle pc pkgs).1 →
      m.termination = false := by
  intro pkgs
  induction pkgs with
  | nil =>
    intro pc m hm
    simp [processPkgs] at hm
  | cons pkg rest ih =>
    intro pc m hm
    rcases hc : pkgToCsv pkg with - | oc
    · simp [processPkgs, hc] at hm
    · rcases oc with - | csv
      · simp only [processPkgs, hc] at hm
        exact ih pc m hm
      · simp only [processPkgs, hc] at hm
        by_cases ho : oracle pc
        · rw [if_pos ho] at hm
          simp only [List.mem_cons] at hm
          rcases hm with rfl | hm'
          · rfl
          · exact ih (pc + 1) m hm'
        · rw [if_neg ho] at hm
          simp only [List.mem_singleton] at hm
          rw [hm]

theorem runLoop_no_pill (oracle : Nat → Bool) :
    ∀ (iters : List IterInput) (pc : Nat) (m : BMsg), m ∈ (runLoop oracle pc iters).1 →
      m.termination = false := by
  intro iters
  induction iters with
  | nil =>
    intro pc m hm
    simp [runLoop] at hm
  | cons it rest ih =>
    intro pc m hm
    simp only [runLoop] at hm
    rcases herr : (processPkgs oracle pc (frame it.buffer)).2.2 with - | e
    · rw [herr] at hm
      simp only at hm
      by_cases ht : it.timeoutReached
      · rw [if_pos ht] at hm
        exact processPkgs_no_pill oracle _ pc m hm
      · rw [if_neg ht] at hm
        by_cases hs : it.stopSig
        · rw [if_pos hs] at hm
          exact processPkgs_no_pill oracle _ pc m hm
        · rw [if_neg hs] at hm
          simp only [List.mem_append] at hm
          rcases hm with hm' | hm'
          · exact processPkgs_no_pill oracle _ pc m hm'
          · exact ih _ m hm'
    · rw [herr] at hm
      simp only at hm
      exact processPkgs_no_pill oracle _ pc m hm

theorem countPills_eq_zero (tr : List BMsg) (h : ∀ m ∈ tr, m.termination = false) :
    countPills tr = 0 := by
  unfold countPills
  rw [List.filter_eq_nil_iff.mpr (by intro m hm; rw [h m hm]; simp)]
  rfl

theorem countPills_concat_pill (tr : List BMsg) :
    countPills (tr ++ [pillMsg]) = countPills tr + 1 := by
  unfold countPills
  rw [List.filter_append]
  simp [pillMsg]

theorem frame_single (pkg : List Nat) (h : pkg.length = 1024) : frame pkg = [pkg] := by
  have hne : pkg ≠ [] := by
    intro hh
    rw [hh] at h
    simp at h
  rw [frame_cons pkg hne, List.take_of_length_le (by omega), List.drop_of_length_le (by omega)]
  rfl

theorem decodePkg_a_packet : decodePkg (encodePkg 0 0 [97]) = some (0, 0, [97]) := by
  have h := decode_encode_plain 0 0 [97] (by norm_num) (by norm_num) (by simp) (by decide)
  rw [h]
  have : pyStrip [97] = [97] := by decide
  rw [this]

/-- A concrete broker run in which the single event publish fails: the loop
aborts with `ReporterError` and the poison pill is never attempted. -/
theorem runReporter_publishFail_example :
    runReporter (fun _ => false) [⟨false, false, encodePkg 0 0 [97]⟩]
      = ([⟨eventCsv 0 "timed_event" [97], false⟩], .abortedInLoop .publishError) := by
  have hpkg : pkgToCsv (encodePkg 0 0 [97]) = some (some (eventCsv 0 "timed_event" [97])) := by
    unfold pkgToCsv
    rw [decodePkg_a_packet]
    simp
  have hframe : frame (encodePkg 0 0 [97]) = [encodePkg 0 0 [97]] :=
    frame_single _ (length_encodePkg 0 0 [97] (by simp))
  have hproc : processPkgs (fun _ => false) 0 [encodePkg 0 0 [97]]
      = ([⟨eventCsv 0 "timed_event" [97], false⟩], 1, some .publishError) := by
    simp [processPkgs, hpkg]
  have hloop : runLoop (fun _ => false) 0 [⟨false, false, encodePkg 0 0 [97]⟩]
      = ([⟨eventCsv 0 "timed_event" [97], false⟩], 1, .aborted .publishError) := by
    simp only [runLoop, hframe, hproc]
  unfold runReporter
  rw [hloop]

theorem splitFirst_of_no_comma (p : Str) (h : ¬ 44 ∈ p) : splitFirst p = (p, none) := by
  induction p with
  | nil => rfl
  | cons c cs ih =>
    have hc : c ≠ 44 := fun hcc => h (hcc ▸ List.mem_cons_self c cs)
    have hcs : ¬ 44 ∈ cs := fun hmem => h (List.mem_cons_of_mem c hmem)
    simp only [splitFirst, if_neg hc, ih hcs]

theorem lookupA_updateA_self {α : Type} (m : List (Str × α)) (key : Str) (v : α) :
    lookupA (updateA m key v) key = some v := by
  induction m with
  | nil => simp [updateA, lookupA]
  | cons kv rest ih =>
    obtain ⟨k, w⟩ := kv
    by_cases hk : k = key
    · simp [updateA, lookupA, hk]
    · simp only [updateA, if_neg hk, lookupA]
      exact ih

theorem lookupA_updateA_ne {α : Type} (m : List (Str × α)) (key q : Str) (v : α)
    (h : q ≠ key) : lookupA (updateA m key v) q = lookupA m q := by
  induction m with
  | nil =>
    simp only [updateA, lookupA]
    rw [if_neg (Ne.symm h)]
  | cons kv rest ih =>
    obtain ⟨k, w⟩ := kv
    by_cases hk : k = key
    · subst hk
      simp only [updateA, if_pos rfl, lookupA]
      rw [if_neg (Ne.symm h), if_neg (Ne.symm h)]
    · simp only [updateA, if_neg hk, lookupA]
      by_cases hq : k = q
      · rw [if_pos hq, if_pos hq]
      · rw [if_neg hq, if_neg hq]
        exact ih

theorem fileStep_counts (fp : Str) (s : FileState) (e : FEvent) :
    ((fileStep fp s e).1.timedCount = s.timedCount ∨
      (fileStep fp s e).1.timedCount = s.timedCount + 1) ∧
    ((fileStep fp s e).1.stateCount = s.stateCount ∨
      (fileStep fp s e).1.stateCount = s.stateCount + 1) ∧
    ((fileStep fp s e).1.processCount = s.processCount ∨
      (fileStep fp s e).1.processCount = s.processCount + 1) ∧
    ((fileStep fp s e).1.componentCount = s.componentCount ∨
      (fileStep fp s e).1.componentCount = s.componentCount + 1) := by
  unfold fileStep writeSink
  split_ifs with h0 h1 h2 h3 h4 h5
  · rcases lookupA s.sinks mainKey with - | ref <;> simp
  · rcases lookupA s.sinks mainKey with - | ref <;> simp
  · rcases lookupA s.sinks mainKey with - | ref <;> simp
  · rcases lookupA s.sinks mainKey with - | ref <;> simp
  · simp
  · rcases hsp : splitFirst e.payload with ⟨comp, osuf⟩
    rcases osuf with - | suffix
    · simp
    · rcases hl : lookupA s.sinks comp with - | ref <;> simp [hl]
  · rcases lookupA s.sinks mainKey with - | ref <;> simp

theorem runFile_counts_le (fp : Str) :
    ∀ (evs : List FEvent) (s : FileState),
      s.timedCount ≤ (runFile fp s evs).timedCount ∧
      s.stateCount ≤ (runFile fp s evs).stateCount ∧
      s.processCount ≤ (runFile fp s evs).processCount ∧
      s.componentCount ≤ (runFile fp s evs).componentCount := by
  intro evs
  induction evs with
  | nil =>
    intro s
    exact ⟨le_refl _, le_refl _, le_refl _, le_refl _⟩
  | cons e rest ih =>
    intro s
    obtain ⟨c1, c2, c3, c4⟩ := fileStep_counts fp s e
    simp only [runFile]
    rcases herr : (fileStep fp s e).2 with - | err
    · dsimp only
      obtain ⟨d1, d2, d3, d4⟩ := ih (fileStep fp s e).1
      exact ⟨by omega, by omega, by omega, by omega⟩
    · dsimp only
      exact ⟨by omega, by omega, by omega, by omega⟩

/-! ## Claims -/

/-- C1 (counterexample): the round-trip law fails as stated. For the payload
`" a"` (a leading space, then a printable byte) the decoder returns `"a"`,
not the right-strip `" a"`: the source applies `.strip()`, which removes
whitespace from both ends, not only from the right. -/
theorem claim_C1_counterexample :
    decodePkg (encodePkg 0 0 [32, 97]) ≠ some (0, 0, bytesRStrip [32, 97]) := by
  rw [decode_encode_plain 0 0 [32, 97] (by norm_num) (by norm_num) (by simp) (by decide)]
  decide

/-- C1 (amended): for every timestamp below `2^64`, kind below `2^32`, and
payload of at most 1010 plain printable ASCII bytes (no quote, no backslash)
that does not begin with whitespace, decoding the encoded 1024-byte packet
yields exactly `(ts, kind, payload.rstrip())`. For payloads with leading
whitespace the decoder also strips the left end, and for payloads with
quotes, backslashes or non-printable bytes the Python bytes-repr escaping
leaks into the decoded string, so the unrestricted law fails. -/
theorem claim_C1 (ts k : Nat) (p : Str) (hts : ts < 2 ^ 64) (hk : k < 2 ^ 32)
    (hlen : p.length ≤ 1010)
    (hbytes : ∀ b ∈ p, 32 ≤ b ∧ b ≤ 126 ∧ b ≠ 34 ∧ b ≠ 39 ∧ b ≠ 92)
    (hhead : p.head? ≠ some 32) :
    decodePkg (encodePkg ts k p) = some (ts, k, bytesRStrip p) := by
  rw [decode_encode_plain ts k p hts hk hlen hbytes]
  rw [pyStrip_plain_noleading p (fun b hb => ⟨(hbytes b hb).1, (hbytes b hb).2.1⟩) hhead]

/-- C1 witness: the amended law at `ts = 7`, `kind = 3`, payload `"ab c"`. -/
theorem claim_C1_witness :
    7 < 2 ^ 64 ∧ 3 < 2 ^ 32 ∧ ([97, 98, 32, 99] : Str).length ≤ 1010 ∧
    decodePkg (encodePkg 7 3 [97, 98, 32, 99]) = some (7, 3, bytesRStrip [97, 98, 32, 99]) :=
  ⟨by norm_num, by norm_num, by simp,
    claim_C1 7 3 [97, 98, 32, 99] (by norm_num) (by norm_num) (by simp) (by decide) (by decide)⟩

/-- C2: a buffer that is the concatenation of `n` whole 1024-byte packets is
sliced by the framer into exactly `n` slices, each of exactly 1024 bytes,
whose concatenation in order is the original buffer. -/
theorem claim_C2 (buf : List Nat) (n : Nat) (h : buf.length = n * 1024) :
    (frame buf).length = n ∧ (∀ q ∈ frame buf, q.length = 1024) ∧
    (frame buf).flatten = buf :=
  frame_whole n buf h

/-- C2 witness: a 2048-byte buffer frames into two 1024-byte packets. -/
theorem claim_C2_witness :
    (List.replicate 2048 (0 : Nat)).length = 2 * 1024 ∧
    (frame (List.replicate 2048 (0 : Nat))).length = 2 ∧
    (∀ q ∈ frame (List.replicate 2048 (0 : Nat)), q.length = 1024) ∧
    (frame (List.replicate 2048 (0 : Nat))).flatten = List.replicate 2048 (0 : Nat) :=
  ⟨by rw [List.length_replicate], claim_C2 (List.replicate 2048 0) 2 (by rw [List.length_replicate])⟩

/-- C3: on a buffer whose length is not a multiple of 1024 the loop body never
completes silently: whatever the broker does, processing the sliced packets
aborts, and with a healthy broker the abort is precisely the `struct.error`
raised by unpacking the short trailing slice (the spec's `FramingError`).
The short remainder is never turned into an event. -/
theorem claim_C3 (buf : List Nat) (oracle : Nat → Bool) (pc : Nat)
    (h : buf.length % 1024 ≠ 0) :
    (processPkgs oracle pc (frame buf)).2.2 ≠ none ∧
    (processPkgs (fun _ => true) pc (frame buf)).2.2 = some .structError := by
  obtain ⟨q, hq, hq2⟩ := frame_short_chunk buf.length buf (le_refl _) h
  have hnone : pkgToCsv q = none := pkgToCsv_none_of_short q hq2
  exact ⟨processPkgs_abort_of_mem_none oracle _ pc ⟨q, hq, hnone⟩,
    processPkgs_allok_structError _ pc ⟨q, hq, hnone⟩⟩

/-- C3 witness: a one-byte buffer is refused. -/
theorem claim_C3_witness :
    ([0] : List Nat).length % 1024 ≠ 0 ∧
    (processPkgs (fun _ => true) 0 (frame [0])).2.2 ≠ none ∧
    (processPkgs (fun _ => true) 0 (frame [0])).2.2 = some .structError :=
  ⟨by decide, claim_C3 [0] (fun _ => true) 0 (by decide)⟩

/-- C4: over any broker run, at most one poison pill is ever published, and
whenever the acquisition loop exits through its condition (stop signal or
timeout), the publish trace ends with exactly one poison pill — empty body,
header `termination: true` — with no event published after it. -/
theorem claim_C4 (oracle : Nat → Bool) (iters : List IterInput) :
    countPills (runReporter oracle iters).1 ≤ 1 ∧
    (loopExited (runReporter oracle iters).2 = true →
      (runReporter oracle iters).1.getLast? = some pillMsg ∧
      countPills (runReporter oracle iters).1 = 1) := by
  have hz : countPills (runLoop oracle 0 iters).1 = 0 :=
    countPills_eq_zero _ (runLoop_no_pill oracle iters 0)
  simp only [runReporter]
  rcases hres : (runLoop oracle 0 iters).2.2 with - | - | e | -
  · dsimp only
    by_cases ho : oracle (runLoop oracle 0 iters).2.1
    · rw [if_pos ho]
      dsimp only
      rw [countPills_concat_pill, hz]
      exact ⟨by omega, fun _ => ⟨List.getLast?_concat _, rfl⟩⟩
    · rw [if_neg ho]
      dsimp only
      rw [countPills_concat_pill, hz]
      exact ⟨by omega, fun _ => ⟨List.getLast?_concat _, rfl⟩⟩
  · dsimp only
    by_cases ho : oracle (runLoop oracle 0 iters).2.1
    · rw [if_pos ho]
      dsimp only
      rw [countPills_concat_pill, hz]
      exact ⟨by omega, fun _ => ⟨List.getLast?_concat _, rfl⟩⟩
    · rw [if_neg ho]
      dsimp only
      rw [countPills_concat_pill, hz]
      exact ⟨by omega, fun _ => ⟨List.getLast?_concat _, rfl⟩⟩
  · dsimp only
    rw [hz]
    exact ⟨by omega, fun hh => by simp [loopExited] at hh⟩
  · dsimp only
    rw [hz]
    exact ⟨by omega, fun hh => by simp [loopExited] at hh⟩

/-- C4 witness: with a healthy broker and a single stop-flagged iteration the
trace is exactly one poison pill at the end. -/
theorem claim_C4_witness :
    (runReporter (fun _ => true) [⟨true, false, []⟩]).1.getLast? = some pillMsg ∧
    countPills (runReporter (fun _ => true) [⟨true, false, []⟩]).1 = 1 :=
  (claim_C4 (fun _ => true) [⟨true, false, []⟩]).2 (by decide)

/-- C5 (counterexample): when the single event publish of a run fails, the
loop aborts with `ReporterError` — and the poison pill is never attempted:
the raise at the publish site propagates out of `run` before the pill code,
contradicting the claim that the pill is still attempted. -/
theorem claim_C5_counterexample :
    (runReporter (fun _ => false) [⟨false, false, encodePkg 0 0 [97]⟩]).2
        = .abortedInLoop .publishError ∧
    countPills (runReporter (fun _ => false) [⟨false, false, encodePkg 0 0 [97]⟩]).1 = 0 := by
  rw [runReporter_publishFail_example]
  exact ⟨rfl, rfl⟩

/-- C5 (amended): if a broker publish fails during the acquisition loop, the
pipeline aborts the loop and terminates **without** attempting the poison
pill: no pill publish appears anywhere in the trace of an aborted run. -/
theorem claim_C5 (oracle : Nat → Bool) (iters : List IterInput) (e : BrokerAbort)
    (h : (runReporter oracle iters).2 = .abortedInLoop e) :
    countPills (runReporter oracle iters).1 = 0 := by
  have hz : countPills (runLoop oracle 0 iters).1 = 0 :=
    countPills_eq_zero _ (runLoop_no_pill oracle iters 0)
  simp only [runReporter] at h ⊢
  rcases hres : (runLoop oracle 0 iters).2.2 with - | - | e' | -
  · rw [hres] at h
    dsimp only at h
    by_cases ho : oracle (runLoop oracle 0 iters).2.1
    · rw [if_pos ho] at h
      exact absurd h (by simp)
    · rw [if_neg ho] at h
      exact absurd h (by simp)
  · rw [hres] at h
    dsimp only at h
    by_cases ho : oracle (runLoop oracle 0 iters).2.1
    · rw [if_pos ho] at h
      exact absurd h (by simp)
    · rw [if_neg ho] at h
      exact absurd h (by simp)
  · dsimp only
    exact hz
  · rw [hres] at h
    dsimp only at h
    exact absurd h (by simp)

/-- C5 witness: the amended behavior at the concrete failing run. -/
theorem claim_C5_witness :
    (runReporter (fun _ => false) [⟨false, false, encodePkg 0 0 [97]⟩]).2
        = RunOutcome.abortedInLoop .publishError ∧
    countPills (runReporter (fun _ => false) [⟨false, false, encodePkg 0 0 [97]⟩]).1 = 0 :=
  ⟨by rw [runReporter_publishFail_example],
    claim_C5 (fun _ => false) [⟨false, false, encodePkg 0 0 [97]⟩] .publishError
      (by rw [runReporter_publishFail_example])⟩

/-- C6 (counterexample): a second kind-4 event with the same payload is NOT a
no-op. After `[kind4 "m", kind5 "m,x"]` the sink file for `"m"` holds the line
`"0,x\n"`; a further `kind4 "m"` re-opens it with mode `"w"`, truncating the
contents back to empty and registering a fresh stream (sid 2 instead of 1). -/
theorem claim_C6_counterexample :
    lookupA (runFile (strCodes "d") exampleMainState
        [⟨0, 4, strCodes "m"⟩, ⟨0, 5, strCodes "m,x"⟩]).files examplePathM
      = some [48, 44, 120, 10] ∧
    lookupA (runFile (strCodes "d") exampleMainState
        [⟨0, 4, strCodes "m"⟩, ⟨0, 5, strCodes "m,x"⟩]).sinks (strCodes "m")
      = some ⟨1, examplePathM⟩ ∧
    lookupA (runFile (strCodes "d") exampleMainState
        [⟨0, 4, strCodes "m"⟩, ⟨0, 5, strCodes "m,x"⟩, ⟨0, 4, strCodes "m"⟩]).files examplePathM
      = some [] ∧
    lookupA (runFile (strCodes "d") exampleMainState
        [⟨0, 4, strCodes "m"⟩, ⟨0, 5, strCodes "m,x"⟩, ⟨0, 4, strCodes "m"⟩]).sinks (strCodes "m")
      = some ⟨2, examplePathM⟩ := by
  decide

/-- C6 (amended): every kind-4 event — first or subsequent — opens the file
`"<files_path>/<payload>_log.csv"` truncated, registers a fresh stream for it
under `sinks[payload]` (replacing any earlier registration), emits no line
(all other files are unchanged and no line is appended anywhere), raises no
error and leaves the counters unchanged. A second kind-4 with the same
payload is therefore not a no-op: it truncates the sink file and replaces
the registered stream. -/
theorem claim_C6 (fp : Str) (s : FileState) (ts : Int) (p : Str) :
    (fileStep fp s ⟨ts, 4, p⟩).2 = none ∧
    lookupA (fileStep fp s ⟨ts, 4, p⟩).1.files (fp ++ [47] ++ p ++ strCodes "_log.csv")
      = some [] ∧
    lookupA (fileStep fp s ⟨ts, 4, p⟩).1.sinks p
      = some ⟨s.nextId, fp ++ [47] ++ p ++ strCodes "_log.csv"⟩ ∧
    (fileStep fp s ⟨ts, 4, p⟩).1.nextId = s.nextId + 1 ∧
    getCount (fileStep fp s ⟨ts, 4, p⟩).1 = getCount s ∧
    (∀ q, q ≠ fp ++ [47] ++ p ++ strCodes "_log.csv" →
      lookupA (fileStep fp s ⟨ts, 4, p⟩).1.files q = lookupA s.files q) := by
  unfold fileStep
  norm_num
  exact ⟨lookupA_updateA_self s.files _ [], lookupA_updateA_self s.sinks p _, rfl,
    fun q hq => lookupA_updateA_ne s.files _ q [] hq⟩

/-- C6 witness: the amended behavior at a concrete state and payload. -/
theorem claim_C6_witness :
    (fileStep (strCodes "d") exampleMainState ⟨0, 4, strCodes "m"⟩).2 = none ∧
    lookupA (fileStep (strCodes "d") exampleMainState ⟨0, 4, strCodes "m"⟩).1.files
        (strCodes "d" ++ [47] ++ strCodes "m" ++ strCodes "_log.csv") = some [] :=
  ⟨(claim_C6 (strCodes "d") exampleMainState 0 (strCodes "m")).1,
    (claim_C6 (strCodes "d") exampleMainState 0 (strCodes "m")).2.1⟩

/-- C7: a kind-5 event whose payload splits on its first comma into
`comp`/`suffix` appends exactly the one line `"<ts>,<suffix>\n"` to the file
of the sink registered under `comp` and increments the component counter; when
no sink is registered under `comp` the router raises the lookup error
(`KeyError`, the spec's `SinkMissingError`) after the counter increment,
writing nothing. -/
theorem claim_C7 (fp : Str) (s : FileState) (ts : Int) (p comp suffix : Str)
    (hsplit : splitFirst p = (comp, some suffix)) :
    (∀ ref, lookupA s.sinks comp = some ref →
      fileStep fp s ⟨ts, 5, p⟩ =
        ({ s with componentCount := s.componentCount + 1,
                  files := appendFile s.files ref.path
                    (intToDec ts ++ [44] ++ suffix ++ [10]) }, none)) ∧
    (lookupA s.sinks comp = none →
      fileStep fp s ⟨ts, 5, p⟩ =
        ({ s with componentCount := s.componentCount + 1 }, some (.keyError comp))) := by
  unfold fileStep
  norm_num
  rw [hsplit]
  constructor
  · intro ref href
    dsimp only
    rw [href]
  · intro hnone
    dsimp only
    rw [hnone]

/-- C7 witness: both the registered-sink write and the error case, at the
concrete payload `"m,x"` and a state where `"m"` is registered. -/
theorem claim_C7_witness :
    splitFirst (strCodes "m,x") = (strCodes "m", some (strCodes "x")) ∧
    fileStep (strCodes "d") exampleRegState ⟨0, 5, strCodes "m,x"⟩ =
      ({ exampleRegState with
          componentCount := exampleRegState.componentCount + 1,
          files := appendFile exampleRegState.files examplePathM
            (intToDec 0 ++ [44] ++ strCodes "x" ++ [10]) }, none) :=
  ⟨by decide,
    (claim_C7 (strCodes "d") exampleRegState 0 (strCodes "m,x") (strCodes "m") (strCodes "x")
      (by decide)).1 ⟨1, examplePathM⟩ (by decide)⟩

/-- C8: an event whose 4-byte event type is outside 0..5 is never an error.
Broker variant: the packet's CSV is built with the tag `invalid` and handed to
the publish call. File variant: the 1040-byte decode is total, and the router
writes the `invalid`-tagged line to the main sink, raises no error, and
leaves every counter unchanged. -/
theorem claim_C8 (pkgB : List Nat) (ts k : Nat) (p : Str)
    (hB : decodePkg pkgB = some (ts, k, p)) (hk : 6 ≤ k)
    (pkgF : List Nat) (hF : pkgF.length = 1040)
    (fp : Str) (s : FileState) (e : FEvent) (ref : SinkRef)
    (he : e.etype < 0 ∨ 5 < e.etype) (hm : lookupA s.sinks mainKey = some ref) :
    pkgToCsv pkgB = some (some (eventCsv ts "invalid" p)) ∧
    (∃ ev, fileDecodePkg pkgF = some ev) ∧
    fileStep fp s e =
      ({ s with
          files := appendFile s.files ref.path (fileCsvLine e.timestamp "invalid" e.payload) },
        none) := by
  refine ⟨?_, ?_, ?_⟩
  · unfold pkgToCsv
    rw [hB]
    dsimp only
    rw [if_neg (by omega), if_neg (by omega), if_neg (by omega), if_neg (by omega),
      if_neg (by omega)]
  · unfold fileDecodePkg
    rw [if_pos hF]
    exact ⟨_, rfl⟩
  · unfold fileStep writeSink
    rw [if_neg (by omega), if_neg (by omega), if_neg (by omega), if_neg (by omega),
      if_neg (by omega), if_neg (by omega), hm]

/-- C8 witness: kind 7 in both variants at concrete inputs. -/
theorem claim_C8_witness :
    decodePkg (encodePkg 9 7 [97]) = some (9, 7, [97]) ∧
    pkgToCsv (encodePkg 9 7 [97]) = some (some (eventCsv 9 "invalid" [97])) ∧
    (∃ ev, fileDecodePkg (List.replicate 1040 0) = some ev) ∧
    fileStep (strCodes "d") exampleRegState ⟨0, 7, [97]⟩ =
      ({ exampleRegState with
          files := appendFile exampleRegState.files (strCodes "main_log.csv")
            (fileCsvLine 0 "invalid" [97]) }, none) := by
  have hB : decodePkg (encodePkg 9 7 [97]) = some (9, 7, [97]) := by
    rw [decode_encode_plain 9 7 [97] (by norm_num) (by norm_num) (by simp) (by decide)]
    decide
  have h := claim_C8 (encodePkg 9 7 [97]) 9 7 [97] hB (by norm_num)
    (List.replicate 1040 0) (by rw [List.length_replicate])
    (strCodes "d") exampleRegState ⟨0, 7, [97]⟩ ⟨0, strCodes "main_log.csv"⟩
    (Or.inr (by norm_num)) (by decide)
  exact ⟨hB, h.1, h.2.1, h.2.2⟩

/-- C9: the four event counters are natural numbers (hence non-negative);
every router step leaves each `get_count()` entry unchanged or increments it
by one, and over any run of the routing loop the `get_count()` 4-tuple is
pointwise non-decreasing. -/
theorem claim_C9 (fp : Str) (s : FileState) (e : FEvent) (evs : List FEvent) (i : Nat) :
    ((getCount (fileStep fp s e).1).getD i 0 = (getCount s).getD i 0 ∨
      (getCount (fileStep fp s e).1).getD i 0 = (getCount s).getD i 0 + 1) ∧
    (getCount s).getD i 0 ≤ (getCount (runFile fp s evs)).getD i 0 := by
  obtain ⟨c1, c2, c3, c4⟩ := fileStep_counts fp s e
  obtain ⟨d1, d2, d3, d4⟩ := runFile_counts_le fp evs s
  unfold getCount
  match i with
  | 0 => exact ⟨c1, d1⟩
  | 1 => exact ⟨c2, d2⟩
  | 2 => exact ⟨c3, d3⟩
  | 3 => exact ⟨c4, d4⟩
  | n + 4 => exact ⟨Or.inl rfl, le_refl 0⟩

/-- C10: a kind-5 event whose decoded payload contains no comma makes the
router raise the index error from `split(",", 1)[1]` — before any sink lookup
or write: the resulting state differs from the pre-state only in the (already
incremented) component counter, the file map is untouched, and the error is
`IndexError`, not the lookup `KeyError`, even when a sink under the full
payload name exists. -/
theorem claim_C10 (fp : Str) (s : FileState) (ts : Int) (p : Str) (h : ¬ 44 ∈ p) :
    fileStep fp s ⟨ts, 5, p⟩ =
      ({ s with componentCount := s.componentCount + 1 }, some .indexError) := by
  unfold fileStep
  norm_num
  rw [splitFirst_of_no_comma p h]

/-- C10 witness: payload `"abc"` (no comma) raises `IndexError` even though
the state has registered sinks. -/
theorem claim_C10_witness :
    ¬ (44 ∈ strCodes "abc") ∧
    fileStep (strCodes "d") exampleRegState ⟨0, 5, strCodes "abc"⟩ =
      ({ exampleRegState with componentCount := exampleRegState.componentCount + 1 },
        some .indexError) :=
  ⟨by decide, claim_C10 (strCodes "d") exampleRegState 0 (strCodes "abc") (by decide)⟩

end RTReporter
